import Mathlib

/-!
Verification of the streaming AI-transform pipeline of the editrion editor
(`src/components/Tab.ts`): the chunk sanitizer `sanitizeAiChunk`, the
insertion segmenter `chunkForInsert`, the stream reassembler and the
incremental inserter inside `runCodex`.  Text is modelled as `List Char`;
each definition is a direct transcription of the corresponding JavaScript,
with the regular expressions expanded into explicit deterministic matchers
(each regex used by the source is free of essential backtracking, so the
maximal-munch transcription is exact).
-/

set_option autoImplicit false
set_option maxRecDepth 8192

namespace Editrion

/-- The character class of JavaScript `\s` (also the set trimmed by
`String.prototype.trimStart`). -/
def isJsWs (c : Char) : Bool :=
  c = ' ' || c = '\t' || c = '\n' || c = '\r' || c = '\x0b' || c = '\x0c' ||
  c = '\u00A0' || c = '\u1680' ||
  ('\u2000' ≤ c && c ≤ '\u200A') ||
  c = '\u2028' || c = '\u2029' || c = '\u202F' || c = '\u205F' ||
  c = '\u3000' || c = '\uFEFF'

/-- `s.replace(/\r\n?/g, '\n')`: every CRLF pair and every lone CR becomes LF. -/
def normCR : List Char → List Char
  | [] => []
  | '\r' :: '\n' :: rest => '\n' :: normCR rest
  | '\r' :: rest => '\n' :: normCR rest
  | c :: rest => c :: normCR rest

/-- After `ESC [`, consume `[0-9;]*` and a final `m`; `some rest` on success. -/
def takeAnsiBody : List Char → Option (List Char)
  | [] => none
  | c :: rest =>
    if c = 'm' then some rest
    else if c.isDigit || c = ';' then takeAnsiBody rest
    else none

/-- Fuel-based scan for `stripAnsi`; every step consumes at least one input
character, so fuel equal to the input length (what `stripAnsi` passes) never
runs out and the fuel-exhausted branch is unreachable. -/
def stripAnsiF : Nat → List Char → List Char
  | _, [] => []
  | 0, l => l
  | f + 1, '\x1b' :: '[' :: rest =>
    (match takeAnsiBody rest with
     | some rest2 => stripAnsiF f rest2
     | none => '\x1b' :: stripAnsiF f ('[' :: rest))
  | f + 1, c :: rest => c :: stripAnsiF f rest

/-- `s.replace(/\x1b\[[0-9;]*m/g, '')`: left-to-right scan removing each
ANSI SGR escape sequence. -/
def stripAnsi (l : List Char) : List Char := stripAnsiF l.length l

/-- `s.split('\n')` on a char list. -/
def splitNl : List Char → List (List Char)
  | [] => [[]]
  | c :: rest =>
    match splitNl rest with
    | [] => [[]]
    | l :: ls => if c = '\n' then [] :: l :: ls else (c :: l) :: ls

/-- `lines.join('\n')` of JavaScript. -/
def joinNl : List (List Char) → List Char
  | [] => []
  | [l] => l
  | l :: l2 :: ls => l ++ '\n' :: joinNl (l2 :: ls)

/-- `s.replace(/^\s+/, '')`. -/
def ltrim (s : List Char) : List Char := s.dropWhile isJsWs

/-- `s.replace(/\s+$/, '')`. -/
def rtrim (s : List Char) : List Char := (s.reverse.dropWhile isJsWs).reverse

/-- Trim both ends, as `replace(/^\s+/,'').replace(/\s+$/,'')`. -/
def trimBoth (s : List Char) : List Char := rtrim (ltrim s)

/-- Length of the match of `/\s+$/` (0 when there is none). -/
def trailingWsLen (s : List Char) : Nat := (s.reverse.takeWhile isJsWs).length

/-- Case-sensitive literal matcher: consume `pat`, return the rest. -/
def lit (pat s : List Char) : Option (List Char) :=
  if s.take pat.length = pat then some (s.drop pat.length) else none

/-- Case-insensitive literal matcher (`pat` is given in lower case). -/
def litCI (pat s : List Char) : Option (List Char) :=
  if (s.take pat.length).map Char.toLower = pat then some (s.drop pat.length)
  else none

/-- `\s+`: at least one whitespace character, consumed greedily. -/
def ws1 (s : List Char) : Option (List Char) :=
  match s with
  | c :: rest => if isJsWs c then some (rest.dropWhile isJsWs) else none
  | [] => none

/-- Characters of the separator class `[-=_]`. -/
def isSepChar (c : Char) : Bool := c = '-' || c = '=' || c = '_'

/-- Regex `^---\s*INPUT\s+END\s*---` with flag `i`, as a matcher returning the rest. -/
def inputEndTail (s : List Char) : Option (List Char) :=
  (lit ("---".toList) s).bind fun s1 =>
  (litCI ("input".toList) (s1.dropWhile isJsWs)).bind fun s2 =>
  (ws1 s2).bind fun s3 =>
  (litCI ("end".toList) s3).bind fun s4 =>
  lit ("---".toList) (s4.dropWhile isJsWs)

/-- Regex `^---\s*INPUT\s+START\s*---` with flag `i`, as a matcher returning the rest. -/
def inputStartTail (s : List Char) : Option (List Char) :=
  (lit ("---".toList) s).bind fun s1 =>
  (litCI ("input".toList) (s1.dropWhile isJsWs)).bind fun s2 =>
  (ws1 s2).bind fun s3 =>
  (litCI ("start".toList) s3).bind fun s4 =>
  lit ("---".toList) (s4.dropWhile isJsWs)

/-- `/^[-=_]{3,}\s*$/`: a run of three or more separator characters followed
only by whitespace. -/
def sepLine (ts : List Char) : Bool :=
  let r := ts.takeWhile isSepChar
  decide (3 ≤ r.length) && (ts.drop r.length).all isJsWs

/-- `/^Return only the transformed text\.?$/i`. -/
def guidanceLine (ts : List Char) : Bool :=
  match litCI ("return only the transformed text".toList) ts with
  | some r => r = [] || r = ['.']
  | none => false

/-- `/^User instructions\s*:/i`. -/
def userInstrLine (ts : List Char) : Bool :=
  match litCI ("user instructions".toList) ts with
  | some r =>
    match r.dropWhile isJsWs with
    | ':' :: _ => true
    | _ => false
  | none => false

/-- `\s*[:=]` must follow. -/
def colonNext (s : List Char) : Bool :=
  match s.dropWhile isJsWs with
  | c :: _ => c = ':' || c = '='
  | [] => false

/-- The keyword alternation
`(workdir|provider|approval|sandbox|reasoning(\s+effort|\s+summaries)?|usage|model|tokens?|runId)\s*[:=]`,
alternatives tried in the regex's order. -/
def metaKeyLine (s : List Char) : Bool :=
  (match litCI ("workdir".toList) s with
   | some r => colonNext r | none => false) ||
  (match litCI ("provider".toList) s with
   | some r => colonNext r | none => false) ||
  (match litCI ("approval".toList) s with
   | some r => colonNext r | none => false) ||
  (match litCI ("sandbox".toList) s with
   | some r => colonNext r | none => false) ||
  (match litCI ("reasoning".toList) s with
   | some r =>
     (match (ws1 r).bind (fun r2 => litCI ("effort".toList) r2) with
      | some r3 => colonNext r3 | none => false) ||
     (match (ws1 r).bind (fun r2 => litCI ("summaries".toList) r2) with
      | some r3 => colonNext r3 | none => false) ||
     colonNext r
   | none => false) ||
  (match litCI ("usage".toList) s with
   | some r => colonNext r | none => false) ||
  (match litCI ("model".toList) s with
   | some r => colonNext r | none => false) ||
  (match litCI ("tokens".toList) s with
   | some r => colonNext r | none => false) ||
  (match litCI ("token".toList) s with
   | some r => colonNext r | none => false) ||
  (match litCI ("runid".toList) s with
   | some r => colonNext r | none => false)

/-- `/^(?:[-=_]{3,}\s*)?(workdir|...)\s*[:=]/i`: an optional separator run of
three or more characters (whose members can never begin a keyword, making the
optional group deterministic) then a keyword and `\s*[:=]`. -/
def metaRule (ts : List Char) : Bool :=
  let r := ts.takeWhile isSepChar
  if 3 ≤ r.length then metaKeyLine ((ts.drop r.length).dropWhile isJsWs)
  else metaKeyLine ts

/-- `[0-9]{4}-[0-9]{2}-[0-9]{2}` as a matcher returning the rest. -/
def isoDateTail (s : List Char) : Option (List Char) :=
  match s with
  | a :: b :: c :: d :: '-' :: e :: f :: '-' :: g :: h :: rest =>
    if a.isDigit && b.isDigit && c.isDigit && d.isDigit &&
       e.isDigit && f.isDigit && g.isDigit && h.isDigit then some rest
    else none
  | _ => none

/-- `/^\[[0-9]{4}-[0-9]{2}-[0-9]{2}[^\]]*\]/`. -/
def timestampLine (ts : List Char) : Bool :=
  match ts with
  | '[' :: rest =>
    match isoDateTail rest with
    | some r =>
      let inner := r.takeWhile (fun c => !(c = ']'))
      match r.drop inner.length with
      | ']' :: _ => true
      | _ => false
    | none => false
  | _ => false

/-- `/^codex\s*$/i`. -/
def codexLine (ts : List Char) : Bool :=
  match litCI ("codex".toList) ts with
  | some r => r.all isJsWs
  | none => false

/-- The `shouldRemove` line predicate of `sanitizeAiChunk`
(`src/components/Tab.ts:284`): `ts` is the line after `trimStart()`. -/
def shouldRemove (line : List Char) : Bool :=
  let ts := line.dropWhile isJsWs
  ts.take 3 == ("```".toList) ||
  sepLine ts ||
  (inputStartTail ts).isSome ||
  (inputEndTail ts).isSome ||
  guidanceLine ts ||
  userInstrLine ts ||
  metaRule ts ||
  timestampLine ts ||
  codexLine ts

/-- `sanitizeAiChunk` (`src/components/Tab.ts:282`): normalize line endings,
strip ANSI SGR sequences, drop noise lines, rejoin with LF. -/
def sanitizeAiChunk (s : List Char) : List Char :=
  joinNl ((splitNl (stripAnsi (normCR s))).filter (fun l => !shouldRemove l))

/-- The backward scan of `chunkForInsert`: `for (j = limit; j > lo; j--)
if (\s.test(s[j-1])) { cut = j; break }`, with `fallb` the hard cut `limit`. -/
def scanBack (r : List Char) (lo fallb : Nat) : Nat → Nat
  | 0 => fallb
  | j + 1 =>
    if j + 1 ≤ lo then fallb
    else if isJsWs (r.getD j ' ') then j + 1
    else scanBack r lo fallb j

/-- Cut position for the next segment of `chunkForInsert`, relative to the
remaining input `r`.  The source loops forever when `size = 0`; the clamp
`max 1` keeps the function total and agrees with the source for `size ≥ 1`,
where the computed cut is already positive. -/
def chunkCut (size : Nat) (r : List Char) : Nat :=
  max 1 (scanBack r (size / 2) (min size r.length) (min size r.length))

/-- Fuel-based loop for `chunkForInsert`; each iteration cuts off at least
one character, so fuel equal to the input length (what `chunkForInsert`
passes) never runs out and the fuel-exhausted branch is unreachable. -/
def chunkForInsertF : Nat → Nat → List Char → List (List Char)
  | _, _, [] => []
  | 0, _, s => [s]
  | f + 1, size, c :: cs =>
    (c :: cs).take (chunkCut size (c :: cs)) ::
      chunkForInsertF f size ((c :: cs).drop (chunkCut size (c :: cs)))

/-- `chunkForInsert` (`src/components/Tab.ts:266`): split into windows of at
most `size` characters, preferring a whitespace boundary in the back half of
each window. -/
def chunkForInsert (size : Nat) (s : List Char) : List (List Char) :=
  chunkForInsertF s.length size s

/-! Section: Stream reassembler (`onStream` handler of `runCodex`, Tab.ts:579) -/

/-- Scan for the leftmost match of `---\s*INPUT\s+END\s*---` (flag `i`) and
return the index just past it, as `m.index + m[0].length` in the source. -/
def findMarkerEndAux : Nat → List Char → Option Nat
  | i, l =>
    match inputEndTail l with
    | some rest => some (i + (l.length - rest.length))
    | none =>
      match l with
      | [] => none
      | _ :: t => findMarkerEndAux (i + 1) t

def findMarkerEnd (s : List Char) : Option Nat :=
  findMarkerEndAux 0 s

/-- `pending.replace(/^\s*Return only the transformed text\.?\s*/i, '')`. -/
def stripGuidance (p : List Char) : List Char :=
  match litCI ("return only the transformed text".toList) (p.dropWhile isJsWs) with
  | some r =>
    (match r with
     | '.' :: t => t
     | _ => r).dropWhile isJsWs
  | none => p

/-- A character `.` can match (JavaScript dot excludes line terminators). -/
def notLineTerm (c : Char) : Bool :=
  !(c = '\n' || c = '\r' || c = '\u2028' || c = '\u2029')

/-- `pending.replace(/^\[[^\]]+\].*\n?/g, '')`: anchored at the start, so at
most one leading bracketed line is removed despite the `g` flag. -/
def stripTimestampHead (p : List Char) : List Char :=
  match p with
  | '[' :: rest =>
    let inner := rest.takeWhile (fun c => !(c = ']'))
    if inner.length = 0 then p
    else
      match rest.drop inner.length with
      | ']' :: r2 =>
        let r3 := r2.dropWhile notLineTerm
        (match r3 with
         | '\n' :: r4 => r4
         | _ => r3)
      | _ => p
  | _ => p

/-- `pending.replace(/^\s*codex\s*\n?/i, '')`. -/
def stripCodexHead (p : List Char) : List Char :=
  match litCI ("codex".toList) (p.dropWhile isJsWs) with
  | some r => r.dropWhile isJsWs
  | none => p

/-- Boundary detection: if the INPUT END marker occurs in `p`, drop everything
through it, then one guidance sentence, one leading bracketed line and one
leading `codex` line. -/
def afterBoundary (p : List Char) : Option (List Char) :=
  (findMarkerEnd p).map fun e =>
    stripCodexHead (stripTimestampHead (stripGuidance (p.drop e)))

/-- One `onStream` event's reassembly step (Tab.ts:584-608).  Input: the
session's `metaDone` and `pending` and the event's raw data; output: the new
`metaDone`, the new `pending`, and the sanitized ready slice (`textOut`,
empty when nothing is ready). -/
def reassembleStep (metaDone : Bool) (pending chunk : List Char) :
    Bool × List Char × List Char :=
  let p := pending ++ normCR chunk
  if metaDone then
    if p = [] then (true, [], [])
    else (true, [], sanitizeAiChunk p)
  else
    match afterBoundary p with
    | none => (false, p.drop (p.length - 512), [])
    | some p2 =>
      if p2 = [] then (true, [], [])
      else (true, [], sanitizeAiChunk p2)

/-! Section: The run session (`runCodex`, Tab.ts:506-694)

The document buffer, caret and selection belong to the third-party editor
widget, which the repository only calls.  Modelled from the spec: the
text-buffer service of §6 exposes offset/position conversion (offsets clamped
to the document length) and edit application; per §4.4 the incremental
inserter computes, for each segment in turn, the buffer position at
`insertOffset`, inserts the segment there with `forceMoveMarkers` so that
subsequent insertions append after the text already inserted rather than
interleave, and advances `insertOffset` by the segment's length. -/

/-- Modelled from the spec: one `{range, text}` edit of the §6 buffer service.
Replaces the range `[a, b)` (offsets clamped to the document) by `t`. -/
def spliceAt (doc : List Char) (a b : Nat) (t : List Char) : List Char :=
  doc.take a ++ t ++ doc.drop b

/-- Modelled from the spec: the §4.4 segment loop — insert each segment at
`insertOffset`, advancing it by the segment's length, each insertion landing
after the previous one (`forceMoveMarkers`).  Returns the new document and
the final `insertOffset`. -/
def insertSegs (doc : List Char) (off : Nat) : List (List Char) → List Char × Nat
  | [] => (doc, off)
  | s :: ss => insertSegs (spliceAt doc off off s) (off + s.length) ss

/-- The mutable state of one `runCodex` invocation: the closure variables of
the handler, the subscription/listener/indicator resources, and the modelled
editor buffer. -/
structure Sess where
  doc : List Char
  caret : Nat
  selStart : Nat
  selEnd : Nat
  hasSelection : Bool
  insertOffset : Nat
  outBuf : List Char
  insertedAny : Bool
  userMoved : Bool
  metaDone : Bool
  pending : List Char
  streamSub : Bool
  doneSub : Bool
  cancelRequested : Bool
  statusVisible : Bool
  cursorActive : Bool
  notification : Option (List Char)
  deriving DecidableEq

/-- Events a session can observe: a `codex-stream` payload, a
`codex-complete` payload, a user-driven cursor move, a click on Cancel. -/
inductive Ev where
  | stream (rid : Nat) (stdout : Bool) (data : List Char)
  | complete (rid : Nat) (ok : Bool) (output : List Char) (err : List Char)
  | userMove (pos : Nat)
  | cancelClick
  deriving DecidableEq

/-- The tail of the `onStream` listener (Tab.ts:609-628) once the
reassembly step has produced new `metaDone`/`pending` values `md`/`pd` and a
sanitized ready slice `t`: left-trim before anything was inserted, append to
`outBuf`, and (in a no-selection session) insert the segments and move the
caret along. -/
def applySlice (st : Sess) (md : Bool) (pd t : List Char) : Sess :=
  if t = [] then { st with metaDone := md, pending := pd }
  else
    let t2 := if st.insertedAny then t else ltrim t
    if t2 = [] then { st with metaDone := md, pending := pd }
    else
      let st1 := { st with metaDone := md, pending := pd,
                           outBuf := st.outBuf ++ t2 }
      if st.hasSelection then st1
      else
        let r2 := insertSegs st.doc st.insertOffset (chunkForInsert 24 t2)
        { st1 with
          doc := r2.1
          insertOffset := r2.2
          caret := if st.userMoved then st.caret else min r2.2 r2.1.length
          insertedAny := true }

/-- The `onStream` listener (Tab.ts:579-629).  A `streamSub = false` state
means the subscription was released, so the listener is not invoked. -/
def handleStream (rid : Nat) (st : Sess) (prid : Nat) (stdout : Bool)
    (data : List Char) : Sess :=
  if !st.streamSub then st
  else if prid ≠ rid then st
  else if !stdout then st
  else if data = [] then st
  else
    let r := reassembleStep st.metaDone st.pending data
    applySlice st r.1 r.2.1 r.2.2

/-- `s.replace(/\r\n/g, '\n')`: every CRLF pair becomes LF. -/
def replaceCRLF : List Char → List Char
  | [] => []
  | '\r' :: '\n' :: rest => '\n' :: replaceCRLF rest
  | c :: rest => c :: replaceCRLF rest

/-- `s.replace(/\r/g, '\n')`: every CR becomes LF. -/
def replaceCR (s : List Char) : List Char :=
  s.map (fun c => if c = '\r' then '\n' else c)

/-- The completion handler's line-ending normalization (Tab.ts:640):
`replace(/\r\n/g, '\n').replace(/\r/g, '\n')`. -/
def normFinal (s : List Char) : List Char := replaceCR (replaceCRLF s)

/-- The alert text of the failure branch (Tab.ts:674), with the raw error
payload appended. -/
def failAlert (err : List Char) : List Char :=
  ("AI failed to run. Please ensure the Codex CLI is installed and available in PATH.\n\n".toList)
    ++ err

/-- The `onDone` listener (Tab.ts:632-678): unsubscribe both channels, apply
the final edit for the matching branch, remove the status box, dispose the
cursor listener. -/
def handleComplete (rid : Nat) (st : Sess) (prid : Nat) (ok : Bool)
    (output err : List Char) : Sess :=
  if !st.doneSub then st
  else if prid ≠ rid then st
  else
    let stU := { st with streamSub := false, doneSub := false }
    let stE :=
      if ok then
        let result := sanitizeAiChunk output
        let base := if st.outBuf ≠ [] then st.outBuf else result
        let finalText := normFinal base
        if st.hasSelection then
          let trimmed := trimBoth finalText
          let doc2 := spliceAt st.doc st.selStart st.selEnd trimmed
          { stU with
            doc := doc2
            caret := if st.userMoved then st.caret
                     else min (st.selStart + trimmed.length) doc2.length }
        else if st.outBuf = [] then
          let trimmed := trimBoth finalText
          let r2 := insertSegs st.doc st.insertOffset (chunkForInsert 24 trimmed)
          { stU with
            doc := r2.1
            insertOffset := r2.2
            caret := if st.userMoved then st.caret else min r2.2 r2.1.length }
        else
          let tr := trailingWsLen finalText
          if tr = 0 then stU
          else
            let doc2 := spliceAt st.doc (st.insertOffset - tr) st.insertOffset []
            { stU with
              doc := doc2
              insertOffset := st.insertOffset - tr
              caret := if st.userMoved then st.caret
                       else min (st.insertOffset - tr) doc2.length }
      else { stU with notification := some (failAlert err) }
    { stE with statusVisible := false, cursorActive := false }

/-- Dispatch one event to the session.  A user cursor move is recorded by the
`onDidChangeCursorPosition` listener only while it is not disposed; the
Cancel button exists only while the status box is shown, and clicking it
requests process cancellation, removes the box and releases both
subscriptions (Tab.ts:681-685). -/
def step (rid : Nat) (st : Sess) : Ev → Sess
  | .stream p c d => handleStream rid st p c d
  | .complete p ok o e => handleComplete rid st p ok o e
  | .userMove pos =>
    { st with caret := pos, userMoved := st.userMoved || st.cursorActive }
  | .cancelClick =>
    if st.statusVisible then
      { st with statusVisible := false, streamSub := false, doneSub := false,
                cancelRequested := true }
    else st

/-- The session state right after `runCodex` has subscribed and invoked the
process (Tab.ts:558-578): `insertOffset` starts at the selection-start/caret
anchor, all flags cleared, both subscriptions live. -/
def initSession (doc : List Char) (caret selStart selEnd : Nat)
    (hasSel : Bool) : Sess :=
  { doc := doc, caret := caret, selStart := selStart, selEnd := selEnd,
    hasSelection := hasSel, insertOffset := selStart, outBuf := [],
    insertedAny := false, userMoved := false, metaDone := false,
    pending := [], streamSub := true, doneSub := true,
    cancelRequested := false, statusVisible := true, cursorActive := true,
    notification := none }

/-- Feed a list of raw stdout chunks to a fresh no-selection session on an
empty document; `outBuf` of the result is the sanitized text delivered
downstream. -/
def feedChunks (chunks : List (List Char)) : Sess :=
  chunks.foldl (fun st c => step 0 st (.stream 0 true c))
    (initSession [] 0 0 0 false)

/-- The raw stream of the split-boundary resilience property: preamble noise,
the INPUT END marker, the echoed guidance sentence, then the payload. -/
def rawC1 : List Char :=
  ("noise --- INPUT END --- Return only the transformed text.\nHELLO".toList)

/-- The part of `rawC1` up to and including the newline after the guidance
sentence. -/
def headC1 : List Char :=
  ("noise --- INPUT END --- Return only the transformed text.\n".toList)

/-- Characters of the payload `HELLO` of `rawC1`. -/
def goodChar (c : Char) : Bool :=
  c = 'H' || c = 'E' || c = 'L' || c = 'O'

/-- The caret-follow invariant of a streaming no-selection session: the caret
sits at the tracked insertion offset, which has advanced from `init` by
exactly the accumulated output length and is a valid document offset. -/
def followInv (init : Nat) (st : Sess) : Prop :=
  st.hasSelection = false ∧ st.userMoved = false ∧
  st.caret = st.insertOffset ∧
  st.insertOffset = init + st.outBuf.length ∧
  st.insertOffset ≤ st.doc.length

/-- Events that are deliveries on the per-run stream channel. -/
def isStreamEv : Ev → Bool
  | .stream _ _ _ => true
  | _ => false

/-- Events that are deliveries on the stream or completion channels (the two
channels a session subscribes to). -/
def isChannelEv : Ev → Bool
  | .stream _ _ _ => true
  | .complete _ _ _ _ => true
  | _ => false

/-- A selection session over the document `xfooy`, selecting `foo`. -/
def st0C3 : Sess := initSession ("xfooy".toList) 1 1 4 true

/-- `st0C3` after one post-boundary stream event carrying `BAR`. -/
def st1C3 : Sess := step 7 st0C3 (.stream 7 true ("--- INPUT END ---BAR".toList))

/-- `st1C3` after a successful completion whose output is `BAZ`. -/
def st2C3 : Sess := step 7 st1C3 (.complete 7 true ("BAZ".toList) [])

/-- Nested ANSI escape material: stripping once leaves a new escape sequence. -/
def ansiNested : List Char := ['\x1b', '[', '\x1b', '[', '0', 'm', '0', 'm']

/-- A sample with fenced-code markers, ANSI sequences and mixed line endings. -/
def mixedSample : List Char :=
  ("```\nkeep  this line \r\nnext\rline \x1b[31mred\x1b[0m\n---\nworkdir: /tmp\n".toList)

/-! Section: Segmenter lemmas -/

theorem chunkForInsertF_flatten : ∀ (f size : Nat) (s : List Char),
    (chunkForInsertF f size s).flatten = s := by
  intro f
  induction f with
  | zero =>
    intro size s
    cases s <;> simp [chunkForInsertF]
  | succ f ih =>
    intro size s
    cases s with
    | nil => simp [chunkForInsertF]
    | cons c cs =>
      simp only [chunkForInsertF, List.flatten_cons, ih,
        List.take_append_drop]

theorem chunkForInsert_join (size : Nat) (s : List Char) :
    (chunkForInsert size s).flatten = s :=
  chunkForInsertF_flatten s.length size s

theorem spliceAt_insert_length (doc : List Char) (off : Nat) (t : List Char)
    (h : off ≤ doc.length) :
    (spliceAt doc off off t).length = doc.length + t.length := by
  simp only [spliceAt, List.length_append, List.length_take, List.length_drop]
  omega

theorem insertSegs_eq (segs : List (List Char)) : ∀ (doc : List Char) (off : Nat),
    off ≤ doc.length →
    insertSegs doc off segs =
      (spliceAt doc off off segs.flatten, off + segs.flatten.length) := by
  induction segs with
  | nil =>
    intro doc off h
    simp [insertSegs, spliceAt, List.take_append_drop]
  | cons s ss ih =>
    intro doc off h
    rw [insertSegs]
    have hlen : off + s.length ≤ (spliceAt doc off off s).length := by
      rw [spliceAt_insert_length doc off s h]
      omega
    rw [ih _ _ hlen]
    have h1 : (doc.take off ++ s).length = off + s.length := by
      simp [List.length_take, Nat.min_eq_left h]
    have h2 : spliceAt doc off off s = (doc.take off ++ s) ++ doc.drop off := by
      simp [spliceAt, List.append_assoc]
    rw [h2]
    simp only [spliceAt, List.take_left' h1, List.drop_left' h1,
      List.flatten_cons, List.length_append]
    refine Prod.ext ?_ ?_
    · simp [List.append_assoc]
    · simp
      omega

/-! Section: Claim C7 (segmenter round-trip) and Claim C2 (contiguous insertion) -/

/-- Claim C7: for every string `s` and every `targetSize ≥ 1`, concatenating
the segments returned by `chunkForInsert`, in order, yields exactly `s`: the
segmenter terminates and loses or duplicates no characters. -/
theorem C7_segmenter_round_trip (s : List Char) (targetSize : Nat)
    (_h : 1 ≤ targetSize) :
    (chunkForInsert targetSize s).flatten = s :=
  chunkForInsert_join targetSize s

theorem C7_segmenter_round_trip_witness :
    1 ≤ 5 ∧
      (chunkForInsert 5 ("ab cd ef".toList)).flatten = ("ab cd ef".toList) :=
  ⟨by decide, C7_segmenter_round_trip ("ab cd ef".toList) 5 (by decide)⟩

/-- Claim C2: in a no-selection session, applying the segments of one
sanitized slice in order, each inserted at the tracked insertion offset which
then advances by the segment's length, produces exactly the previous document
with the whole slice inserted contiguously at the original offset — segments
append after one another and never interleave with pre-existing document
text, for every insertion position `off ≤ doc.length` (including positions
in the middle of the document). -/
theorem C2_stream_insertion_contiguous (doc slice : List Char) (off : Nat)
    (h : off ≤ doc.length) :
    insertSegs doc off (chunkForInsert 24 slice) =
      (spliceAt doc off off slice, off + slice.length) := by
  rw [insertSegs_eq _ _ _ h, chunkForInsert_join]

theorem C2_stream_insertion_contiguous_witness :
    2 ≤ ("abcd".toList).length ∧
      insertSegs ("abcd".toList) 2
          (chunkForInsert 24 ("The quick brown fox jumps over".toList)) =
        (spliceAt ("abcd".toList) 2 2 ("The quick brown fox jumps over".toList),
          2 + ("The quick brown fox jumps over".toList).length) :=
  ⟨by decide,
    C2_stream_insertion_contiguous ("abcd".toList)
      ("The quick brown fox jumps over".toList) 2 (by decide)⟩

/-! Section: Session step lemmas -/

theorem handleStream_unsub (rid : Nat) (st : Sess) (prid : Nat) (c : Bool)
    (d : List Char) (h : st.streamSub = false) :
    handleStream rid st prid c d = st := by
  simp [handleStream, h]

theorem handleComplete_unsub (rid : Nat) (st : Sess) (prid : Nat) (ok : Bool)
    (o e : List Char) (h : st.doneSub = false) :
    handleComplete rid st prid ok o e = st := by
  simp [handleComplete, h]

theorem applySlice_selection (st : Sess) (md : Bool) (pd t : List Char)
    (hsel : st.hasSelection = true) :
    (applySlice st md pd t).doc = st.doc ∧
      (applySlice st md pd t).caret = st.caret := by
  unfold applySlice
  by_cases h1 : t = []
  · simp [h1]
  · simp only [if_neg h1]
    by_cases h2 : (if st.insertedAny then t else ltrim t) = []
    · simp [h2]
    · simp only [if_neg h2, hsel]
      simp

theorem handleStream_selection (rid : Nat) (st : Sess) (prid : Nat) (c : Bool)
    (d : List Char) (hsel : st.hasSelection = true) :
    (handleStream rid st prid c d).doc = st.doc ∧
      (handleStream rid st prid c d).caret = st.caret := by
  unfold handleStream
  split
  · exact ⟨rfl, rfl⟩
  split
  · exact ⟨rfl, rfl⟩
  split
  · exact ⟨rfl, rfl⟩
  split
  · exact ⟨rfl, rfl⟩
  exact applySlice_selection _ _ _ _ hsel

theorem normFinal_eq_normCR : ∀ (s : List Char), normFinal s = normCR s := by
  intro s
  induction s using replaceCRLF.induct with
  | case1 => rfl
  | case2 rest ih =>
    show replaceCR (replaceCRLF ('\r' :: '\n' :: rest)) = normCR ('\r' :: '\n' :: rest)
    rw [show replaceCRLF ('\r' :: '\n' :: rest) = '\n' :: replaceCRLF rest from rfl,
      show normCR ('\r' :: '\n' :: rest) = '\n' :: normCR rest from rfl,
      show replaceCR ('\n' :: replaceCRLF rest) =
        '\n' :: replaceCR (replaceCRLF rest) from by simp [replaceCR]]
    show '\n' :: normFinal rest = _
    rw [ih]
  | case3 c rest hcon ih =>
    have h1 : replaceCRLF (c :: rest) = c :: replaceCRLF rest := by
      simp [replaceCRLF]
    show replaceCR (replaceCRLF (c :: rest)) = normCR (c :: rest)
    rw [h1]
    by_cases hc : c = '\r'
    · subst hc
      have h2 : normCR ('\r' :: rest) = '\n' :: normCR rest := by
        cases rest with
        | nil => rfl
        | cons d t =>
          by_cases hd : d = '\n'
          · exact absurd (hd ▸ rfl) (fun hh => hcon t rfl hh)
          · simp [normCR, hd]
      rw [h2, show replaceCR ('\r' :: replaceCRLF rest) =
        '\n' :: replaceCR (replaceCRLF rest) from by simp [replaceCR]]
      show '\n' :: normFinal rest = _
      rw [ih]
    · have h2 : normCR (c :: rest) = c :: normCR rest := by
        cases rest with
        | nil => simp [normCR, hc]
        | cons d t => simp [normCR, hc]
      rw [h2, show replaceCR (c :: replaceCRLF rest) =
        c :: replaceCR (replaceCRLF rest) from by simp [replaceCR, hc]]
      show c :: normFinal rest = _
      rw [ih]

theorem handleComplete_ok_sel (rid : Nat) (st : Sess) (out err : List Char)
    (h1 : st.doneSub = true) (hsel : st.hasSelection = true) :
    handleComplete rid st rid true out err =
      (let trimmed := trimBoth (normCR (if st.outBuf ≠ [] then st.outBuf
                                        else sanitizeAiChunk out))
       let doc2 := spliceAt st.doc st.selStart st.selEnd trimmed
       { st with streamSub := false, doneSub := false, doc := doc2,
                 caret := if st.userMoved then st.caret
                          else min (st.selStart + trimmed.length) doc2.length,
                 statusVisible := false, cursorActive := false }) := by
  simp [handleComplete, h1, hsel, normFinal_eq_normCR]

theorem handleComplete_ok_noStream_noSel (rid : Nat) (st : Sess)
    (out err : List Char) (h1 : st.doneSub = true)
    (hsel : st.hasSelection = false) (hob : st.outBuf = []) :
    handleComplete rid st rid true out err =
      (let trimmed := trimBoth (normCR (sanitizeAiChunk out))
       let r2 := insertSegs st.doc st.insertOffset (chunkForInsert 24 trimmed)
       { st with streamSub := false, doneSub := false, doc := r2.1,
                 insertOffset := r2.2,
                 caret := if st.userMoved then st.caret
                          else min r2.2 r2.1.length,
                 statusVisible := false, cursorActive := false }) := by
  simp [handleComplete, h1, hsel, hob, normFinal_eq_normCR]

theorem handleComplete_fail (rid : Nat) (st : Sess) (out err : List Char)
    (h1 : st.doneSub = true) :
    handleComplete rid st rid false out err =
      { st with streamSub := false, doneSub := false,
                notification := some (failAlert err),
                statusVisible := false, cursorActive := false } := by
  simp [handleComplete, h1]

/-! Section: Claim C3 (selection sessions do not stream) -/

/-- Claim C3 (amended): in a session with `hasSelection = true` an incoming
stream event causes no buffer edit and no caret change (though the
reassembler state and the output accumulator do advance), and a successful
completion replaces the original selection in a single edit by the trimmed
accumulated streamed text when any was accumulated, and otherwise by the
trimmed sanitized completion output. -/
theorem C3_selection_replace (rid : Nat) :
    (∀ (st : Sess) (prid : Nat) (c : Bool) (d : List Char),
        st.hasSelection = true →
        (step rid st (.stream prid c d)).doc = st.doc ∧
        (step rid st (.stream prid c d)).caret = st.caret) ∧
    (∀ (st : Sess) (out err : List Char),
        st.hasSelection = true → st.doneSub = true →
        (step rid st (.complete rid true out err)).doc =
          spliceAt st.doc st.selStart st.selEnd
            (trimBoth (normCR (if st.outBuf ≠ [] then st.outBuf
                               else sanitizeAiChunk out)))) := by
  constructor
  · intro st prid c d hsel
    exact handleStream_selection rid st prid c d hsel
  · intro st out err hsel h1
    show (handleComplete rid st rid true out err).doc = _
    rw [handleComplete_ok_sel rid st out err h1 hsel]

/-- The claim as frozen is false on the code: a stream slice does change the
session state (the accumulator), and the completion edit then uses the
accumulated stream, not the sanitized completion output. -/
theorem C3_selection_replace_counterexample :
    st1C3.outBuf ≠ st0C3.outBuf ∧
    st2C3.doc ≠ spliceAt st0C3.doc st0C3.selStart st0C3.selEnd
        (trimBoth (normCR (sanitizeAiChunk ("BAZ".toList)))) := by
  decide

theorem C3_selection_replace_witness :
    ((step 7 st0C3 (.stream 7 true ("--- INPUT END ---BAR".toList))).doc =
        st0C3.doc ∧
      (step 7 st0C3 (.stream 7 true ("--- INPUT END ---BAR".toList))).caret =
        st0C3.caret) ∧
    (step 7 st1C3 (.complete 7 true ("BAZ".toList) [])).doc =
      spliceAt st1C3.doc st1C3.selStart st1C3.selEnd
        (trimBoth (normCR (if st1C3.outBuf ≠ [] then st1C3.outBuf
                           else sanitizeAiChunk ("BAZ".toList)))) :=
  ⟨(C3_selection_replace 7).1 st0C3 7 true ("--- INPUT END ---BAR".toList)
      (by decide),
    (C3_selection_replace 7).2 st1C3 ("BAZ".toList) [] (by decide) (by decide)⟩

/-! Section: Claim C8 (run-failure atomicity) -/

/-- Claim C8: when the completion event for the session's run id arrives with
`ok = false`, a notification containing the raw error payload is shown, the
completion performs no buffer mutation and no caret change, and the content
already streamed (document and accumulator) is left untouched. -/
theorem C8_failure_atomic (rid : Nat) (st : Sess) (out err : List Char)
    (h1 : st.doneSub = true) :
    (step rid st (.complete rid false out err)).doc = st.doc ∧
    (step rid st (.complete rid false out err)).caret = st.caret ∧
    (step rid st (.complete rid false out err)).outBuf = st.outBuf ∧
    (step rid st (.complete rid false out err)).notification =
      some (failAlert err) := by
  show (handleComplete rid st rid false out err).doc = st.doc ∧
    (handleComplete rid st rid false out err).caret = st.caret ∧
    (handleComplete rid st rid false out err).outBuf = st.outBuf ∧
    (handleComplete rid st rid false out err).notification =
      some (failAlert err)
  rw [handleComplete_fail rid st out err h1]
  exact ⟨rfl, rfl, rfl, rfl⟩

theorem C8_failure_atomic_witness :
    (step 5 st1C3 (.complete 5 false [] ("boom".toList))).doc = st1C3.doc ∧
    (step 5 st1C3 (.complete 5 false [] ("boom".toList))).caret = st1C3.caret ∧
    (step 5 st1C3 (.complete 5 false [] ("boom".toList))).outBuf = st1C3.outBuf ∧
    (step 5 st1C3 (.complete 5 false [] ("boom".toList))).notification =
      some (failAlert ("boom".toList)) :=
  C8_failure_atomic 5 st1C3 [] ("boom".toList) (by decide)

/-! Section: Claim C10 (empty final output) -/

/-- Claim C10: when a run completes successfully with nothing streamed and
the sanitized completion output trims to the empty string, a no-selection
session performs no buffer edit (the segmenter yields no segments), a
selection session still performs its single replacement edit with the empty
string (deleting the selection), and no notification is shown in either
case. -/
theorem C10_empty_final_output (rid : Nat) (st : Sess) (out err : List Char)
    (h1 : st.doneSub = true) (hob : st.outBuf = [])
    (hemp : trimBoth (normCR (sanitizeAiChunk out)) = []) :
    (st.hasSelection = false →
      (step rid st (.complete rid true out err)).doc = st.doc) ∧
    (st.hasSelection = true →
      (step rid st (.complete rid true out err)).doc =
        spliceAt st.doc st.selStart st.selEnd []) ∧
    (step rid st (.complete rid true out err)).notification =
      st.notification := by
  refine ⟨fun hsel => ?_, fun hsel => ?_, ?_⟩
  · show (handleComplete rid st rid true out err).doc = st.doc
    rw [handleComplete_ok_noStream_noSel rid st out err h1 hsel hob]
    simp only [hemp]
    show (insertSegs st.doc st.insertOffset (chunkForInsert 24 [])).1 = st.doc
    rfl
  · show (handleComplete rid st rid true out err).doc = _
    rw [handleComplete_ok_sel rid st out err h1 hsel]
    simp only [hob]
    simp [hemp, hob]
  · show (handleComplete rid st rid true out err).notification = _
    by_cases hsel : st.hasSelection = true
    · rw [handleComplete_ok_sel rid st out err h1 hsel]
    · rw [handleComplete_ok_noStream_noSel rid st out err h1
        (by revert hsel; cases st.hasSelection <;> simp) hob]

theorem C10_empty_final_output_witness :
    ((step 2 (initSession ("abcd".toList) 1 1 3 true)
        (.complete 2 true ("  ".toList) [])).doc =
      spliceAt ("abcd".toList) 1 3 []) ∧
    ((step 2 (initSession ("abcd".toList) 2 2 2 false)
        (.complete 2 true ("  ".toList) [])).doc = ("abcd".toList)) :=
  ⟨by
    have h := (C10_empty_final_output 2 (initSession ("abcd".toList) 1 1 3 true)
      ("  ".toList) [] (by decide) (by decide) (by decide)).2.1 (by decide)
    exact h,
   by
    have h := (C10_empty_final_output 2 (initSession ("abcd".toList) 2 2 2 false)
      ("  ".toList) [] (by decide) (by decide) (by decide)).1 (by decide)
    exact h⟩

/-! Section: Claim C6 (cancellation finality) -/

theorem foldl_step_unsub (rid : Nat) : ∀ (evs : List Ev) (st : Sess),
    st.streamSub = false → st.doneSub = false →
    (∀ e ∈ evs, isChannelEv e = true) →
    evs.foldl (step rid) st = st := by
  intro evs
  induction evs with
  | nil => intro st _ _ _; rfl
  | cons e es ih =>
    intro st h1 h2 hall
    have he : isChannelEv e = true := hall e (by simp)
    have hstep : step rid st e = st := by
      cases e with
      | stream p c d => exact handleStream_unsub rid st p c d h1
      | complete p ok o er => exact handleComplete_unsub rid st p ok o er h2
      | userMove pos => simp [isChannelEv] at he
      | cancelClick => simp [isChannelEv] at he
    rw [List.foldl_cons, hstep]
    exact ih st h1 h2 (fun e2 he2 => hall e2 (by simp [he2]))

/-- Claim C6: once the session's cancel action has run (process cancellation
requested, status indicator removed, both event subscriptions released), no
subsequently delivered stream or completion event changes the session at
all — in particular no buffer mutation and no caret change occurs. -/
theorem C6_cancellation_finality (rid : Nat) (st : Sess) (evs : List Ev)
    (hvis : st.statusVisible = true)
    (hall : ∀ e ∈ evs, isChannelEv e = true) :
    (step rid st .cancelClick).cancelRequested = true ∧
    (step rid st .cancelClick).statusVisible = false ∧
    (step rid st .cancelClick).streamSub = false ∧
    (step rid st .cancelClick).doneSub = false ∧
    evs.foldl (step rid) (step rid st .cancelClick) = step rid st .cancelClick ∧
    (evs.foldl (step rid) (step rid st .cancelClick)).doc = st.doc ∧
    (evs.foldl (step rid) (step rid st .cancelClick)).caret = st.caret := by
  have hc : step rid st .cancelClick =
      { st with statusVisible := false, streamSub := false, doneSub := false,
                cancelRequested := true } := by
    simp [step, hvis]
  rw [hc]
  have hf := foldl_step_unsub rid evs
    { st with statusVisible := false, streamSub := false, doneSub := false,
              cancelRequested := true } rfl rfl hall
  rw [hf]
  exact ⟨rfl, rfl, rfl, rfl, rfl, rfl, rfl⟩

theorem C6_cancellation_finality_witness :
    ((List.foldl (step 3) (step 3 st1C3 .cancelClick)
        [Ev.stream 3 true ("ZZ".toList),
         Ev.complete 3 true ("Q".toList) []]).doc = st1C3.doc ∧
      (List.foldl (step 3) (step 3 st1C3 .cancelClick)
        [Ev.stream 3 true ("ZZ".toList),
         Ev.complete 3 true ("Q".toList) []]).caret = st1C3.caret) ∧
    (step 3 st1C3 .cancelClick).cancelRequested = true :=
  ⟨⟨(C6_cancellation_finality 3 st1C3
        [Ev.stream 3 true ("ZZ".toList), Ev.complete 3 true ("Q".toList) []]
        (by decide) (by decide)).2.2.2.2.2.1,
    (C6_cancellation_finality 3 st1C3
        [Ev.stream 3 true ("ZZ".toList), Ev.complete 3 true ("Q".toList) []]
        (by decide) (by decide)).2.2.2.2.2.2⟩,
   (C6_cancellation_finality 3 st1C3
        [Ev.stream 3 true ("ZZ".toList), Ev.complete 3 true ("Q".toList) []]
        (by decide) (by decide)).1⟩

/-! Section: Claim C9 (caret follows the insertion offset) -/

theorem followInv_applySlice (init : Nat) (st : Sess) (md : Bool)
    (pd t : List Char) (h : followInv init st) :
    followInv init (applySlice st md pd t) := by
  obtain ⟨hsel, hmov, hcar, hoff, hle⟩ := h
  unfold applySlice
  by_cases h1 : t = []
  · rw [if_pos h1]
    exact ⟨hsel, hmov, hcar, hoff, hle⟩
  · rw [if_neg h1]
    by_cases h2 : (if st.insertedAny then t else ltrim t) = []
    · rw [if_pos h2]
      exact ⟨hsel, hmov, hcar, hoff, hle⟩
    · rw [if_neg h2]
      simp only [hsel, Bool.false_eq_true, if_false]
      have hr2 : insertSegs st.doc st.insertOffset
          (chunkForInsert 24 (if st.insertedAny then t else ltrim t)) =
          (spliceAt st.doc st.insertOffset st.insertOffset
             (if st.insertedAny then t else ltrim t),
           st.insertOffset + (if st.insertedAny then t else ltrim t).length) := by
        rw [insertSegs_eq _ _ _ hle, chunkForInsert_join]
      rw [hr2]
      have hlen2 : (spliceAt st.doc st.insertOffset st.insertOffset
          (if st.insertedAny then t else ltrim t)).length =
          st.doc.length + (if st.insertedAny then t else ltrim t).length :=
        spliceAt_insert_length _ _ _ hle
      refine ⟨rfl, hmov, ?_, ?_, ?_⟩
      · show (if st.userMoved = true then st.caret else _) = _
        rw [hmov]
        simp only [Bool.false_eq_true, if_false]
        show min (st.insertOffset + _) _ = st.insertOffset + _
        rw [hlen2]
        omega
      · show st.insertOffset + _ = init + (st.outBuf ++ _).length
        rw [hoff]
        simp only [List.length_append]
        omega
      · show st.insertOffset + _ ≤ _
        rw [hlen2]
        omega

theorem followInv_handleStream (init rid : Nat) (st : Sess) (prid : Nat)
    (c : Bool) (d : List Char) (h : followInv init st) :
    followInv init (handleStream rid st prid c d) := by
  unfold handleStream
  split
  · exact h
  split
  · exact h
  split
  · exact h
  split
  · exact h
  exact followInv_applySlice init st _ _ _ h

theorem followInv_foldl (init rid : Nat) : ∀ (evs : List Ev) (st : Sess),
    followInv init st → (∀ e ∈ evs, isStreamEv e = true) →
    followInv init (evs.foldl (step rid) st) := by
  intro evs
  induction evs with
  | nil => intro st h _; exact h
  | cons e es ih =>
    intro st h hall
    have he : isStreamEv e = true := hall e (by simp)
    rw [List.foldl_cons]
    refine ih _ ?_ (fun e2 he2 => hall e2 (by simp [he2]))
    cases e with
    | stream p c d => exact followInv_handleStream init rid st p c d h
    | complete p ok o er => simp [isStreamEv] at he
    | userMove pos => simp [isStreamEv] at he
    | cancelClick => simp [isStreamEv] at he

/-- Claim C9: in a no-selection session during which no user-driven cursor
movement occurs, after any number of streamed events the caret sits at the
offset `initialOffset + L`, where `L` is the total length of the text
inserted so far (the accumulated output), and the tracked insertion offset
equals the same value. -/
theorem C9_caret_follow (rid : Nat) (doc : List Char) (off : Nat)
    (evs : List Ev) (hoff : off ≤ doc.length)
    (hstream : ∀ e ∈ evs, isStreamEv e = true) :
    (evs.foldl (step rid) (initSession doc off off off false)).caret =
      off + (evs.foldl (step rid)
        (initSession doc off off off false)).outBuf.length ∧
    (evs.foldl (step rid) (initSession doc off off off false)).insertOffset =
      off + (evs.foldl (step rid)
        (initSession doc off off off false)).outBuf.length := by
  have h0 : followInv off (initSession doc off off off false) :=
    ⟨rfl, rfl, rfl, by simp [initSession], by simpa [initSession] using hoff⟩
  have h := followInv_foldl off rid evs _ h0 hstream
  exact ⟨h.2.2.1.trans h.2.2.2.1, h.2.2.2.1⟩

theorem C9_caret_follow_witness :
    (1 : Nat) ≤ ("xy".toList).length ∧
    ((List.foldl (step 3) (initSession ("xy".toList) 1 1 1 false)
        [Ev.stream 3 true ("--- INPUT END ---AB".toList),
         Ev.stream 3 true ("CD".toList)]).caret =
      1 + (List.foldl (step 3) (initSession ("xy".toList) 1 1 1 false)
        [Ev.stream 3 true ("--- INPUT END ---AB".toList),
         Ev.stream 3 true ("CD".toList)]).outBuf.length) :=
  ⟨by decide,
    (C9_caret_follow 3 ("xy".toList) 1
      [Ev.stream 3 true ("--- INPUT END ---AB".toList),
       Ev.stream 3 true ("CD".toList)] (by decide) (by decide)).1⟩

/-! Section: Claim C5 (no-boundary fallback scenario) -/

theorem stream_silent (rid : Nat) (st : Sess) (d : List Char) (md : Bool)
    (pd : List Char) (hs : st.streamSub = true) (hd : d ≠ [])
    (hr : reassembleStep st.metaDone st.pending d = (md, pd, [])) :
    step rid st (.stream rid true d) =
      { st with metaDone := md, pending := pd } := by
  simp [step, handleStream, applySlice, hs, hd, hr]

/-- Claim C5: with no selection, streaming `HE` then `LLO ` (the boundary
marker never appears) inserts nothing during streaming; on successful
completion with output `HELLO ` the buffer receives `HELLO` (trailing space
trimmed) at the original caret offset, and the caret ends at the end of the
inserted `HELLO`. -/
theorem C5_no_boundary_fallback (rid : Nat) (doc : List Char) (off : Nat)
    (hoff : off ≤ doc.length) :
    (step rid (initSession doc off off off false)
        (.stream rid true ("HE".toList))).doc = doc ∧
    (step rid (step rid (initSession doc off off off false)
        (.stream rid true ("HE".toList)))
        (.stream rid true ("LLO ".toList))).doc = doc ∧
    (step rid (step rid (step rid (initSession doc off off off false)
        (.stream rid true ("HE".toList)))
        (.stream rid true ("LLO ".toList)))
        (.complete rid true ("HELLO ".toList) [])).doc =
      spliceAt doc off off ("HELLO".toList) ∧
    (step rid (step rid (step rid (initSession doc off off off false)
        (.stream rid true ("HE".toList)))
        (.stream rid true ("LLO ".toList)))
        (.complete rid true ("HELLO ".toList) [])).caret =
      off + ("HELLO".toList).length := by
  have h1 : step rid (initSession doc off off off false)
      (.stream rid true ("HE".toList)) =
      { initSession doc off off off false with
          metaDone := false, pending := ("HE".toList) } :=
    stream_silent rid _ _ _ _ rfl (by decide)
      (by decide :
        reassembleStep false [] ("HE".toList) = (false, ("HE".toList), []))
  have h2 : step rid ({ initSession doc off off off false with
      metaDone := false, pending := ("HE".toList) })
      (.stream rid true ("LLO ".toList)) =
      { initSession doc off off off false with
          metaDone := false, pending := ("HELLO ".toList) } :=
    stream_silent rid _ _ _ _ rfl (by decide)
      (by decide :
        reassembleStep false ("HE".toList) ("LLO ".toList) =
          (false, ("HELLO ".toList), []))
  have h3 : step rid ({ initSession doc off off off false with
      metaDone := false, pending := ("HELLO ".toList) })
      (.complete rid true ("HELLO ".toList) []) =
      (let trimmed := trimBoth (normCR (sanitizeAiChunk ("HELLO ".toList)))
       let r2 := insertSegs doc off (chunkForInsert 24 trimmed)
       { initSession doc off off off false with
           metaDone := false, pending := ("HELLO ".toList),
           streamSub := false, doneSub := false, doc := r2.1,
           insertOffset := r2.2,
           caret := if false then off else min r2.2 r2.1.length,
           statusVisible := false, cursorActive := false }) :=
    handleComplete_ok_noStream_noSel rid _ _ _ rfl rfl rfl
  have htr : trimBoth (normCR (sanitizeAiChunk ("HELLO ".toList))) =
      ("HELLO".toList) := by decide
  have hseg : insertSegs doc off (chunkForInsert 24 ("HELLO".toList)) =
      (spliceAt doc off off ("HELLO".toList), off + ("HELLO".toList).length) := by
    rw [insertSegs_eq _ _ _ hoff, chunkForInsert_join]
  rw [h1, h2, h3]
  simp only [htr, hseg]
  refine ⟨by trivial, by trivial, by trivial, ?_⟩
  show (if false then off else
      min (off + ("HELLO".toList).length)
        (spliceAt doc off off ("HELLO".toList)).length) = _
  rw [if_neg (by simp), spliceAt_insert_length doc off _ hoff]
  omega

theorem C5_no_boundary_fallback_witness :
    1 ≤ ("ab".toList).length ∧
    (step 5 (step 5 (step 5 (initSession ("ab".toList) 1 1 1 false)
        (.stream 5 true ("HE".toList)))
        (.stream 5 true ("LLO ".toList)))
        (.complete 5 true ("HELLO ".toList) [])).doc =
      spliceAt ("ab".toList) 1 1 ("HELLO".toList) :=
  ⟨by decide,
    (C5_no_boundary_fallback 5 ("ab".toList) 1 (by decide)).2.2.1⟩

/-! Section: Sanitizer lemmas and Claim C4 (sanitizer idempotence) -/

theorem normCR_no_cr : ∀ (s : List Char), '\r' ∉ normCR s := by
  intro s
  induction s using normCR.induct with
  | case1 => simp [normCR]
  | case2 rest ih => simp [normCR]; exact ih
  | case3 rest h ih => simp [normCR]; exact ih
  | case4 c rest h1 h2 ih =>
    simp [normCR]
    exact ⟨fun hh => h2 hh.symm, ih⟩

theorem normCR_eq_self : ∀ (s : List Char), '\r' ∉ s → normCR s = s := by
  intro s
  induction s using normCR.induct with
  | case1 => intro _; rfl
  | case2 rest ih => intro h; simp at h
  | case3 rest h ih => intro h2; simp at h2
  | case4 c rest h1 h2 ih =>
    intro h3
    have hr : '\r' ∉ rest := fun hm => h3 (List.mem_cons_of_mem _ hm)
    simp [normCR, ih hr]

theorem takeAnsiBody_subset : ∀ (l r : List Char), takeAnsiBody l = some r →
    ∀ a ∈ r, a ∈ l := by
  intro l
  induction l with
  | nil => intro r h; simp [takeAnsiBody] at h
  | cons c t ih =>
    intro r h a ha
    rw [takeAnsiBody] at h
    by_cases hm : c = 'm'
    · simp [hm] at h
      subst h
      exact List.mem_cons_of_mem _ ha
    · rw [if_neg hm] at h
      by_cases hd : (c.isDigit || c = ';') = true
      · rw [if_pos hd] at h
        exact List.mem_cons_of_mem _ (ih r h a ha)
      · rw [if_neg hd] at h
        cases h

theorem stripAnsiF_subset : ∀ (f : Nat) (l : List Char) (a : Char),
    a ∈ stripAnsiF f l → a ∈ l := by
  intro f l
  induction f, l using stripAnsiF.induct with
  | case1 t => intro a ha; simp [stripAnsiF] at ha
  | case2 l h => intro a ha; simpa [stripAnsiF] using ha
  | case3 f rest rest2 htk ih =>
    intro a ha
    simp only [stripAnsiF, htk] at ha
    exact List.mem_cons_of_mem _ (List.mem_cons_of_mem _
      (takeAnsiBody_subset rest rest2 htk a (ih a ha)))
  | case4 f rest htk ih =>
    intro a ha
    simp only [stripAnsiF, htk] at ha
    rcases List.mem_cons.mp ha with hEq | hmem
    · exact hEq ▸ List.mem_cons_self _ _
    · exact List.mem_cons_of_mem _ (ih a hmem)
  | case5 f c rest hcon ih =>
    intro a ha
    simp only [stripAnsiF] at ha
    rcases List.mem_cons.mp ha with hEq | hmem
    · exact hEq ▸ List.mem_cons_self _ _
    · exact List.mem_cons_of_mem _ (ih a hmem)


theorem splitNl_mem : ∀ (s : List Char) (l : List Char), l ∈ splitNl s →
    ∀ a ∈ l, a ∈ s ∧ a ≠ '\n' := by
  intro s
  induction s with
  | nil =>
    intro l hl a ha
    simp [splitNl] at hl
    subst hl
    cases ha
  | cons c rest ih =>
    intro l hl a ha
    cases hsp : splitNl rest with
    | nil =>
      simp only [splitNl, hsp] at hl
      simp at hl
      subst hl
      cases ha
    | cons l0 ls =>
      simp only [splitNl, hsp] at hl
      by_cases hc : c = '\n'
      · rw [if_pos hc] at hl
        rcases List.mem_cons.mp hl with hEq | hmem
        · subst hEq; cases ha
        · have := ih l (hsp ▸ hmem) a ha
          exact ⟨List.mem_cons_of_mem _ this.1, this.2⟩
      · rw [if_neg hc] at hl
        rcases List.mem_cons.mp hl with hEq | hmem
        · subst hEq
          rcases List.mem_cons.mp ha with hEq2 | hmem2
          · subst hEq2
            exact ⟨List.mem_cons_self _ _, fun hh => hc hh⟩
          · have := ih l0 (hsp ▸ List.mem_cons_self _ _) a hmem2
            exact ⟨List.mem_cons_of_mem _ this.1, this.2⟩
        · have := ih l (hsp ▸ List.mem_cons_of_mem _ hmem) a ha
          exact ⟨List.mem_cons_of_mem _ this.1, this.2⟩

theorem splitNl_of_no_nl : ∀ (l : List Char), '\n' ∉ l → splitNl l = [l] := by
  intro l
  induction l with
  | nil => intro _; rfl
  | cons c t ih =>
    intro h
    have hc : c ≠ '\n' := fun hh => h (hh ▸ List.mem_cons_self _ _)
    have ht : '\n' ∉ t := fun hm => h (List.mem_cons_of_mem _ hm)
    simp [splitNl, ih ht, hc]

theorem splitNl_append : ∀ (l r : List Char), '\n' ∉ l →
    splitNl (l ++ '\n' :: r) = l :: splitNl r := by
  intro l
  induction l with
  | nil =>
    intro r _
    show splitNl ('\n' :: r) = [] :: splitNl r
    rw [splitNl]
    cases hsp : splitNl r with
    | nil => simp
    | cons l0 ls => simp
  | cons c t ih =>
    intro r h
    have hc : c ≠ '\n' := fun hh => h (hh ▸ List.mem_cons_self _ _)
    have ht : '\n' ∉ t := fun hm => h (List.mem_cons_of_mem _ hm)
    show splitNl (c :: (t ++ '\n' :: r)) = (c :: t) :: splitNl r
    simp [splitNl, ih r ht, hc]

theorem splitNl_joinNl : ∀ (L : List (List Char)), L ≠ [] →
    (∀ l ∈ L, '\n' ∉ l) → splitNl (joinNl L) = L := by
  intro L
  induction L with
  | nil => intro h; cases h rfl
  | cons l L' ih =>
    intro _ hall
    cases L' with
    | nil =>
      show splitNl (joinNl [l]) = [l]
      rw [joinNl, splitNl_of_no_nl l (hall l (List.mem_cons_self _ _))]
    | cons l2 L'' =>
      show splitNl (joinNl (l :: l2 :: L'')) = l :: l2 :: L''
      rw [joinNl, splitNl_append l _ (hall l (List.mem_cons_self _ _)),
        ih (by simp) (fun x hx => hall x (List.mem_cons_of_mem _ hx))]

theorem mem_joinNl : ∀ (L : List (List Char)) (a : Char), a ∈ joinNl L →
    a = '\n' ∨ ∃ l ∈ L, a ∈ l := by
  intro L
  induction L using joinNl.induct with
  | case1 => intro a ha; cases ha
  | case2 l => intro a ha; exact Or.inr ⟨l, List.mem_cons_self _ _, ha⟩
  | case3 l l2 ls ih =>
    intro a ha
    rw [joinNl] at ha
    rcases List.mem_append.mp ha with hmem | hmem
    · exact Or.inr ⟨l, List.mem_cons_self _ _, hmem⟩
    · rcases List.mem_cons.mp hmem with hEq | hmem2
      · exact Or.inl hEq
      · rcases ih a hmem2 with hEq | ⟨l0, hl0, hal0⟩
        · exact Or.inl hEq
        · exact Or.inr ⟨l0, List.mem_cons_of_mem _ hl0, hal0⟩

theorem stripAnsi_subset (l : List Char) (a : Char) (h : a ∈ stripAnsi l) :
    a ∈ l :=
  stripAnsiF_subset l.length l a h

theorem sanitize_no_cr (x : List Char) : '\r' ∉ sanitizeAiChunk x := by
  intro hmem
  have hmem2 : '\r' ∈ joinNl ((splitNl (stripAnsi (normCR x))).filter
      (fun l => !shouldRemove l)) := hmem
  rcases mem_joinNl _ '\r' hmem2 with hEq | ⟨l, hl, hal⟩
  · exact absurd hEq (by decide)
  · have hl2 : l ∈ splitNl (stripAnsi (normCR x)) := List.mem_of_mem_filter hl
    have h1 : '\r' ∈ stripAnsi (normCR x) := (splitNl_mem _ _ hl2 _ hal).1
    exact normCR_no_cr x (stripAnsi_subset _ _ h1)

/-- Claim C4 (amended): `sanitizeAiChunk` is idempotent on every input whose
sanitized form is free of residual ANSI escape sequences (one ANSI-stripping
pass already fixes it); the hypothesis holds in particular for inputs with
fenced-code markers, well-formed ANSI sequences and mixed line endings.  In
general idempotence fails, because stripping an escape sequence can splice a
new escape sequence together (see the counterexample). -/
theorem C4_sanitizer_idempotent (x : List Char)
    (h : stripAnsi (sanitizeAiChunk x) = sanitizeAiChunk x) :
    sanitizeAiChunk (sanitizeAiChunk x) = sanitizeAiChunk x := by
  have hnoCR : '\r' ∉ sanitizeAiChunk x := sanitize_no_cr x
  cases hL : (splitNl (stripAnsi (normCR x))).filter (fun l => !shouldRemove l)
    with
  | nil =>
    have hy : sanitizeAiChunk x = [] := by
      show joinNl ((splitNl (stripAnsi (normCR x))).filter
        (fun l => !shouldRemove l)) = []
      rw [hL]
      rfl
    rw [hy]
    decide
  | cons l0 ls =>
    have hy : sanitizeAiChunk x = joinNl (l0 :: ls) := by
      show joinNl ((splitNl (stripAnsi (normCR x))).filter
        (fun l => !shouldRemove l)) = _
      rw [hL]
    have hnn : ∀ l ∈ l0 :: ls, '\n' ∉ l := by
      intro l hl hnl
      have hl1 : l ∈ (splitNl (stripAnsi (normCR x))).filter
          (fun l => !shouldRemove l) := by
        rw [hL]; exact hl
      have hl2 : l ∈ splitNl (stripAnsi (normCR x)) :=
        List.mem_of_mem_filter hl1
      exact (splitNl_mem _ _ hl2 _ hnl).2 rfl
    show joinNl ((splitNl (stripAnsi (normCR (sanitizeAiChunk x)))).filter
      (fun l => !shouldRemove l)) = sanitizeAiChunk x
    rw [normCR_eq_self _ hnoCR, h, hy]
    rw [splitNl_joinNl _ (by simp) hnn]
    have hkeep : ∀ l ∈ l0 :: ls, (!shouldRemove l) = true := by
      intro l hl
      have hl1 : l ∈ (splitNl (stripAnsi (normCR x))).filter
          (fun l => !shouldRemove l) := by
        rw [hL]; exact hl
      have hp := List.of_mem_filter hl1
      exact hp
    rw [List.filter_eq_self.mpr hkeep]

/-- The claim as frozen is false on the code: stripping the ANSI sequences of
`ESC [ ESC [ 0 m 0 m` leaves `ESC [ 0 m`, which a second sanitization pass
removes. -/
theorem C4_sanitizer_idempotent_counterexample :
    sanitizeAiChunk (sanitizeAiChunk ansiNested) ≠ sanitizeAiChunk ansiNested := by
  decide

theorem C4_sanitizer_idempotent_witness :
    stripAnsi (sanitizeAiChunk mixedSample) = sanitizeAiChunk mixedSample ∧
    sanitizeAiChunk (sanitizeAiChunk mixedSample) = sanitizeAiChunk mixedSample :=
  ⟨by decide, C4_sanitizer_idempotent mixedSample (by decide)⟩

/-! Section: Claim C1 (reassembler split-boundary resilience) -/

theorem goodChar_cases (c : Char) (h : goodChar c = true) :
    c = 'H' ∨ c = 'E' ∨ c = 'L' ∨ c = 'O' := by
  simp [goodChar] at h
  tauto

theorem good_no_cr (c : List Char) (h : c.all goodChar = true) : '\r' ∉ c := by
  intro hm
  rcases goodChar_cases _ (List.all_eq_true.mp h _ hm) with h1 | h1 | h1 | h1 <;>
    exact absurd h1 (by decide)

theorem good_no_esc (c : List Char) (h : c.all goodChar = true) :
    '\x1b' ∉ c := by
  intro hm
  rcases goodChar_cases _ (List.all_eq_true.mp h _ hm) with h1 | h1 | h1 | h1 <;>
    exact absurd h1 (by decide)

theorem good_no_nl (c : List Char) (h : c.all goodChar = true) : '\n' ∉ c := by
  intro hm
  rcases goodChar_cases _ (List.all_eq_true.mp h _ hm) with h1 | h1 | h1 | h1 <;>
    exact absurd h1 (by decide)

theorem stripAnsiF_eq_self : ∀ (f : Nat) (l : List Char), '\x1b' ∉ l →
    stripAnsiF f l = l := by
  intro f l
  induction f, l using stripAnsiF.induct with
  | case1 t => intro _; cases t <;> rfl
  | case2 l h =>
    intro _
    cases l with
    | nil => exact absurd rfl h
    | cons c t => rfl
  | case3 f rest rest2 htk ih =>
    intro hne
    exact absurd (List.mem_cons_self _ _) hne
  | case4 f rest htk ih =>
    intro hne
    exact absurd (List.mem_cons_self _ _) hne
  | case5 f c rest hcon ih =>
    intro hne
    have he : stripAnsiF (f + 1) (c :: rest) = c :: stripAnsiF f rest := by
      simp [stripAnsiF]
    rw [he, ih (fun hm => hne (List.mem_cons_of_mem _ hm))]

theorem ltrim_good (c : List Char) (h : c.all goodChar = true) : ltrim c = c := by
  cases c with
  | nil => rfl
  | cons ch t =>
    have hch := List.all_eq_true.mp h ch (List.mem_cons_self _ _)
    rcases goodChar_cases ch hch with h1 | h1 | h1 | h1 <;> subst h1 <;> rfl

theorem shouldRemove_good (c : List Char) (h : c.all goodChar = true) :
    shouldRemove c = false := by
  cases c with
  | nil => decide
  | cons ch t =>
    have hch := List.all_eq_true.mp h ch (List.mem_cons_self _ _)
    rcases goodChar_cases ch hch with h1 | h1 | h1 | h1 <;> subst h1 <;> rfl

theorem sanitize_good (c : List Char) (h : c.all goodChar = true) :
    sanitizeAiChunk c = c := by
  show joinNl ((splitNl (stripAnsi (normCR c))).filter
    (fun l => !shouldRemove l)) = c
  rw [normCR_eq_self c (good_no_cr c h),
    show stripAnsi c = c from stripAnsiF_eq_self c.length c (good_no_esc c h),
    splitNl_of_no_nl c (good_no_nl c h)]
  have hf : List.filter (fun l => !shouldRemove l) [c] = [c] := by
    simp [shouldRemove_good c h]
  rw [hf]
  rfl

theorem reassembleStep_good (c : List Char) (hc : c ≠ [])
    (hg : c.all goodChar = true) : reassembleStep true [] c = (true, [], c) := by
  unfold reassembleStep
  simp [normCR_eq_self c (good_no_cr c hg), hc, sanitize_good c hg]

theorem handleStream_insert_good (rid : Nat) (st : Sess) (c : List Char)
    (hs : st.streamSub = true) (hmd : st.metaDone = true)
    (hpd : st.pending = []) (hsel : st.hasSelection = false) (hc : c ≠ [])
    (hg : c.all goodChar = true) :
    handleStream rid st rid true c =
      { st with
          metaDone := true
          pending := []
          outBuf := st.outBuf ++ c
          doc := (insertSegs st.doc st.insertOffset (chunkForInsert 24 c)).1
          insertOffset :=
            (insertSegs st.doc st.insertOffset (chunkForInsert 24 c)).2
          caret := if st.userMoved then st.caret
                   else min (insertSegs st.doc st.insertOffset
                       (chunkForInsert 24 c)).2
                     (insertSegs st.doc st.insertOffset
                       (chunkForInsert 24 c)).1.length
          insertedAny := true } := by
  have hre : reassembleStep st.metaDone st.pending c = (true, [], c) := by
    rw [hmd, hpd]
    exact reassembleStep_good c hc hg
  have ht2 : (if st.insertedAny then c else ltrim c) = c := by
    cases st.insertedAny <;> simp [ltrim_good c hg]
  simp [handleStream, applySlice, hs, hsel, hc, hre, ht2]

theorem feed_good (rid : Nat) : ∀ (cs : List (List Char)) (st : Sess),
    st.streamSub = true → st.metaDone = true → st.pending = [] →
    st.hasSelection = false → (∀ c ∈ cs, c.all goodChar = true) →
    (cs.foldl (fun s c => step rid s (.stream rid true c)) st).outBuf =
      st.outBuf ++ cs.flatten := by
  intro cs
  induction cs with
  | nil => intro st _ _ _ _ _; simp
  | cons c cs2 ih =>
    intro st h1 h2 h3 h4 hall
    rw [List.foldl_cons]
    by_cases hc : c = []
    · subst hc
      have hstep : step rid st (.stream rid true []) = st := by
        simp [step, handleStream, h1]
      rw [hstep, ih st h1 h2 h3 h4
        (fun c2 hc2 => hall c2 (List.mem_cons_of_mem _ hc2))]
      simp
    · have hg : c.all goodChar = true := hall c (List.mem_cons_self _ _)
      have hstep : step rid st (.stream rid true c) =
          handleStream rid st rid true c := rfl
      have hih := ih
        ({ st with
            metaDone := true
            pending := []
            outBuf := st.outBuf ++ c
            doc := (insertSegs st.doc st.insertOffset (chunkForInsert 24 c)).1
            insertOffset :=
              (insertSegs st.doc st.insertOffset (chunkForInsert 24 c)).2
            caret := if st.userMoved then st.caret
                     else min (insertSegs st.doc st.insertOffset
                         (chunkForInsert 24 c)).2
                       (insertSegs st.doc st.insertOffset
                         (chunkForInsert 24 c)).1.length
            insertedAny := true })
        h1 rfl rfl h4 (fun c2 hc2 => hall c2 (List.mem_cons_of_mem _ hc2))
      rw [hstep, handleStream_insert_good rid st c h1 h2 h3 h4 hc hg, hih]
      simp [List.append_assoc]

/-- Claim C1 (amended): for the raw stream `rawC1`, feeding it as one whole
chunk yields the sanitized downstream text `HELLO`, and so does every
partition into chunks whose first chunk contains the whole prefix up to and
including the newline after the echoed guidance sentence (`headC1`) — the
remaining characters may be split arbitrarily.  Invariance over all
partitions fails (see the counterexample): the guidance sentence is removed
only at boundary-detection time, so partitions that split it leak it
downstream. -/
theorem C1_reassembler_split_resilience (r0 : List Char)
    (cs : List (List Char)) (h : r0 ++ cs.flatten = ("HELLO".toList)) :
    (feedChunks ((headC1 ++ r0) :: cs)).outBuf = ("HELLO".toList) := by
  have hgood : ∀ c ∈ cs, c.all goodChar = true := by
    intro c hc
    rw [List.all_eq_true]
    intro a ha
    have h1 : a ∈ cs.flatten := List.mem_flatten.mpr ⟨c, hc, ha⟩
    have h2 : a ∈ r0 ++ cs.flatten := List.mem_append_right _ h1
    rw [h] at h2
    have hlist : ∀ b ∈ ("HELLO".toList), goodChar b = true := by decide
    exact hlist a h2
  have hcs : cs.flatten = List.drop r0.length ("HELLO".toList) := by
    rw [← h, List.drop_left]
  have hr0 : r0 = List.take r0.length ("HELLO".toList) := by
    rw [← h, List.take_left]
  have hlen : r0.length ≤ 5 := by
    have h2 := congrArg List.length h
    rw [List.length_append] at h2
    have h3 : ("HELLO".toList).length = 5 := by decide
    omega
  have key : ∀ (r0c : List Char),
      (step 0 (initSession [] 0 0 0 false)
        (.stream 0 true (headC1 ++ r0c))).streamSub = true →
      (step 0 (initSession [] 0 0 0 false)
        (.stream 0 true (headC1 ++ r0c))).metaDone = true →
      (step 0 (initSession [] 0 0 0 false)
        (.stream 0 true (headC1 ++ r0c))).pending = [] →
      (step 0 (initSession [] 0 0 0 false)
        (.stream 0 true (headC1 ++ r0c))).hasSelection = false →
      (step 0 (initSession [] 0 0 0 false)
        (.stream 0 true (headC1 ++ r0c))).outBuf = r0c →
      cs.flatten = List.drop r0c.length ("HELLO".toList) →
      r0c ++ List.drop r0c.length ("HELLO".toList) = ("HELLO".toList) →
      (feedChunks ((headC1 ++ r0c) :: cs)).outBuf = ("HELLO".toList) := by
    intro r0c hf1 hf2 hf3 hf4 hf5 hcs2 hjoin
    unfold feedChunks
    rw [List.foldl_cons]
    rw [feed_good 0 cs _ hf1 hf2 hf3 hf4 hgood, hf5, hcs2]
    exact hjoin
  have hcases : r0.length = 0 ∨ r0.length = 1 ∨ r0.length = 2 ∨
      r0.length = 3 ∨ r0.length = 4 ∨ r0.length = 5 := by omega
  rcases hcases with hn | hn | hn | hn | hn | hn <;>
    (rw [hn] at hr0
     subst hr0
     exact key _ (by decide) (by decide) (by decide) (by decide) (by decide)
       hcs (by decide))

/-- The claim as frozen is false on the code: the one-character-at-a-time
partition of `rawC1` delivers the echoed guidance sentence downstream, while
the whole chunk delivers only `HELLO`. -/
theorem C1_reassembler_split_resilience_counterexample :
    (feedChunks (rawC1.map (fun c => [c]))).outBuf ≠
      (feedChunks [rawC1]).outBuf ∧
    (feedChunks [rawC1]).outBuf = ("HELLO".toList) := by
  constructor
  · decide
  · decide

theorem C1_reassembler_split_resilience_witness :
    ("HE".toList) ++ ([("LL".toList), ("O".toList)] : List (List Char)).flatten
        = ("HELLO".toList) ∧
      (feedChunks ((headC1 ++ ("HE".toList)) ::
        [("LL".toList), ("O".toList)])).outBuf = ("HELLO".toList) :=
  ⟨by decide,
    C1_reassembler_split_resilience ("HE".toList)
      [("LL".toList), ("O".toList)] (by decide)⟩

end Editrion
